import Mathlib

/-!
Verification development for the OceanFlow freight-simulation core.

The TypeScript source is embedded shallowly:

* JS numbers are modeled as real numbers (`ℝ`) where the code uses
  transcendental functions (`Math.log`, `Math.exp`, `Math.cos`, `Math.sqrt`),
  and as rationals (`ℚ`) for the purely arithmetic decision/statistics code,
  so those definitions stay executable.
* `Math.random()` draws are passed in explicitly: each sampler receives the
  uniform values it consumes.  The source's retry loop that rejects a draw of
  exactly 0 is modeled by quantifying over the accepted (post-retry) draws.
* JS `x || default` on an optional numeric parameter treats both a missing
  key and the value `0` as falsy; `jsOr` reproduces this exactly.
* `Array.prototype.sort` with the comparator `(a, b) => a - b` is a stable
  ascending sort; it is modeled with the stable `List.insertionSort (· ≤ ·)`.
-/

namespace Oceanflow

/-! ## Data model (client/src/shared/schema.ts) -/

/-- Tag of `RateFactor.distribution`: the TS union
`'normal' | 'lognormal' | 'triangle' | 'exponential'`. -/
inductive FactorDist where
  | normal
  | lognormal
  | triangle
  | exponential
deriving DecidableEq

/-- Tag of `TransitSegment.distribution`: the TS union `'normal' | 'lognormal'`. -/
inductive SegmentDist where
  | normal
  | lognormal
deriving DecidableEq

/-- The `parameters: Record<string, number>` bag: each key the samplers read is
an optional number (`none` models an absent key). -/
structure DistParams where
  mean : Option ℝ := none
  stdDev : Option ℝ := none
  mu : Option ℝ := none
  sigma : Option ℝ := none
  min : Option ℝ := none
  max : Option ℝ := none
  lambda : Option ℝ := none

/-- A congestion scenario, carried for display only. -/
structure CongestionScenario where
  name : String
  probability : ℝ
  delayPattern : List ℝ
  description : String

/-- `RateFactor` from shared/schema.ts (the `type` tag is kept as its string). -/
structure RateFactor where
  name : String
  type : String
  meanMultiplier : ℝ
  distribution : FactorDist
  parameters : DistParams
  enabled : Bool

/-- `TransitSegment` from shared/schema.ts. -/
structure TransitSegment where
  name : String
  baselineDays : ℝ
  distribution : SegmentDist
  parameters : DistParams
  congestionScenarios : List CongestionScenario := []

/-- `SimulationParams` from monte-carlo-worker.ts. -/
structure SimulationParams where
  iterations : ℕ
  baseRate : ℝ
  factors : List RateFactor
  segments : List TransitSegment

/-- `SimulationResult` from shared/schema.ts; `arrivalDate` is kept as epoch
milliseconds (`startDate.getTime() + totalTransitDays * 24*60*60*1000`). -/
structure SimulationResult where
  iteration : ℕ
  rate : ℝ
  transitDays : ℝ
  arrivalDate : ℝ
  delayCost : ℝ
  totalLandedCost : ℝ

/-- JS `x || d` applied to an optional numeric parameter: an absent key
(`undefined`) and the number `0` are both falsy and select the default. -/
noncomputable def jsOr (x : Option ℝ) (d : ℝ) : ℝ :=
  match x with
  | none => d
  | some v => if v = 0 then d else v

/-! ## Variate sampler and outcome compositor (monte-carlo-worker.ts) -/

namespace MonteCarloWorker

/-- `normalRandom(mean, stdDev)`: Box–Muller transform
`z = sqrt(-2 ln u) * cos(2 pi v)`, returning `z * stdDev + mean`.
The two uniform draws `u`, `v` are the accepted values of the source's
retry loops (`while (u === 0) u = Math.random()`). -/
noncomputable def normalRandom (mean stdDev u v : ℝ) : ℝ :=
  Real.sqrt (-2 * Real.log u) * Real.cos (2 * Real.pi * v) * stdDev + mean

/-- `lognormalRandom(mu, sigma)`: exponentiates `mu + sigma * normalRandom(0, 1)`. -/
noncomputable def lognormalRandom (mu sigma u v : ℝ) : ℝ :=
  Real.exp (mu + sigma * normalRandom 0 1 u v)

/-- `triangularRandom(min, mode, max)` by the inverse-CDF method from one
uniform draw `u`. -/
noncomputable def triangularRandom (min mode max u : ℝ) : ℝ :=
  let f := (mode - min) / (max - min)
  if u < f then min + Real.sqrt (u * (max - min) * (mode - min))
  else max - Real.sqrt ((1 - u) * (max - min) * (max - mode))

/-- `exponentialRandom(lambda)`: `-ln(1 - u) / lambda` from one uniform draw. -/
noncomputable def exponentialRandom (lambda u : ℝ) : ℝ :=
  -Real.log (1 - u) / lambda

/-- `simulateRateFactor(factor)`: disabled factors return 1.0; otherwise the
factor's distribution is sampled with `jsOr`-defaulted parameters.
`u`, `v` are the uniform draws the branch consumes (the triangle and
exponential branches use only `u`). -/
noncomputable def simulateRateFactor (factor : RateFactor) (u v : ℝ) : ℝ :=
  if !factor.enabled then 1.0
  else
    match factor.distribution with
    | FactorDist.normal =>
        normalRandom factor.meanMultiplier (jsOr factor.parameters.stdDev 0.02) u v
    | FactorDist.lognormal =>
        lognormalRandom (Real.log factor.meanMultiplier) (jsOr factor.parameters.sigma 0.05) u v
    | FactorDist.triangle =>
        triangularRandom (jsOr factor.parameters.min (factor.meanMultiplier * 0.9))
          factor.meanMultiplier
          (jsOr factor.parameters.max (factor.meanMultiplier * 1.1)) u
    | FactorDist.exponential =>
        exponentialRandom (jsOr factor.parameters.lambda 1.0) u

/-- `simulateTransitSegment(segment)`: the `'normal'` case clamps the draw to a
minimum of 0.1, the `'lognormal'` case returns the raw lognormal draw.
The switch's `default` branch is unreachable for values of the TS union type
`'normal' | 'lognormal'`, so the match has exactly these two cases. -/
noncomputable def simulateTransitSegment (segment : TransitSegment) (u v : ℝ) : ℝ :=
  match segment.distribution with
  | SegmentDist.normal =>
      max 0.1 (normalRandom (jsOr segment.parameters.mean segment.baselineDays)
        (jsOr segment.parameters.stdDev (segment.baselineDays * 0.1)) u v)
  | SegmentDist.lognormal =>
      lognormalRandom (jsOr segment.parameters.mu (Real.log segment.baselineDays))
        (jsOr segment.parameters.sigma 0.2) u v

/-- `runSingleIteration(params)`: one simulated outcome.  `draws k` is the pair
of uniform values consumed by the k-th sampler call of this iteration
(factors first, in order, then segments).  `now` is `startDate.getTime()`. -/
noncomputable def runSingleIteration (params : SimulationParams) (now : ℝ)
    (draws : ℕ → ℝ × ℝ) : SimulationResult :=
  let finalRate := params.factors.enum.foldl
    (fun acc fi => acc * simulateRateFactor fi.2 (draws fi.1).1 (draws fi.1).2)
    params.baseRate
  let nf := params.factors.length
  let totalTransitDays := params.segments.enum.foldl
    (fun acc si => acc + simulateTransitSegment si.2 (draws (nf + si.1)).1 (draws (nf + si.1)).2)
    0
  let expectedDays := params.segments.foldl (fun s seg => s + seg.baselineDays) 0
  let delayDays := max 0 (totalTransitDays - expectedDays)
  let delayCostPerDay := finalRate * 0.001
  let delayCost := delayDays * delayCostPerDay
  { iteration := 0
    rate := finalRate
    transitDays := totalTransitDays
    arrivalDate := now + totalTransitDays * (24 * 60 * 60 * 1000)
    delayCost := delayCost
    totalLandedCost := finalRate + delayCost }

/-- The outcome stored for iteration `i`: `runSingleIteration(params)` with
`result.iteration = i` set by the caller, as in the batch loop's
`result.iteration = i; results.push(result)`. -/
noncomputable def outcomeAt (params : SimulationParams) (now : ℝ)
    (draws : ℕ → ℕ → ℝ × ℝ) (i : ℕ) : SimulationResult :=
  { runSingleIteration params now (draws i) with iteration := i }

/-- Iteration indices of one batch: `batchStart = batchIndex * 100` up to
`batchEnd = min(batchStart + 100, iterations)` (the source's `batchSize` is 100). -/
def batchIters (iterations batchIndex : ℕ) : List ℕ :=
  let batchStart := batchIndex * 100
  let batchEnd := min (batchStart + 100) iterations
  List.range' batchStart (batchEnd - batchStart)

/-- The `processBatch` recursion of `runMonteCarloSimulation`: runs the given
number of remaining batches starting at `batchIndex`, appending each batch's
outcomes (with `result.iteration = i` set by the caller) in order. -/
noncomputable def runBatches (params : SimulationParams) (now : ℝ)
    (draws : ℕ → ℕ → ℝ × ℝ) : ℕ → ℕ → List SimulationResult
  | 0, _ => []
  | k + 1, batchIndex =>
      (batchIters params.iterations batchIndex).map (outcomeAt params now draws)
        ++ runBatches params now draws k (batchIndex + 1)

/-- `runMonteCarloSimulation(params)`: the resolved results list after all
`totalBatches = ceil(iterations / 100)` batches.  `draws i k` is the pair of
uniforms consumed by the k-th sampler call of iteration `i`. -/
noncomputable def runMonteCarloSimulation (params : SimulationParams) (now : ℝ)
    (draws : ℕ → ℕ → ℝ × ℝ) : List SimulationResult :=
  runBatches params now draws ((params.iterations + 99) / 100) 0

/-! ### Worker event-loop model (`self.onmessage` + the `setTimeout` batch chain)

The worker receives client control messages and runs batches as macrotasks.
`handleMessage` is the embedding of `self.onmessage`: its only branch is
`if (type === 'start')`; every other message type falls through with no state
change and no posted event.  `stepBatch` is one `processBatch` macrotask:
it appends the batch's outcomes, posts a progress event, and on the last
batch posts the complete event. -/

/-- Client-to-worker control messages.  The `start` message carries the
`SimulationParams`, which the execution functions below thread separately. -/
inductive WorkerMsg where
  | start
  | pause
  | resume
  | cancel
deriving DecidableEq

/-- Worker-to-client events posted with `self.postMessage`. -/
inductive WorkerEvent where
  | progress (pct : ℝ) (completedIterations : ℕ)
  | complete (results : List SimulationResult)
  | error (message : String)

/-- Lifecycle of the worker's single run. -/
inductive WorkerStatus where
  | idle
  | running
  | done
deriving DecidableEq

/-- State of the worker between macrotasks. -/
structure WorkerState where
  status : WorkerStatus
  batchIndex : ℕ
  completed : ℕ
  results : List SimulationResult

/-- The worker before any message. -/
def initialWorkerState : WorkerState :=
  { status := WorkerStatus.idle, batchIndex := 0, completed := 0, results := [] }

/-- Embedding of `self.onmessage`: a `start` message resets the run state and
posts the initial `progress {0, 0}` event; the handler has no branch for any
other message type, so `pause`, `resume` and `cancel` leave the state
unchanged and post nothing. -/
def handleMessage (st : WorkerState) (m : WorkerMsg) : WorkerState × List WorkerEvent :=
  match m with
  | WorkerMsg.start =>
      ({ status := WorkerStatus.running, batchIndex := 0, completed := 0, results := [] },
        [WorkerEvent.progress 0 0])
  | _ => (st, [])

/-- One `processBatch` macrotask: if a run is in progress, execute the current
batch, post its progress event, and either schedule the next batch (stay
`running`) or resolve and post `complete` (become `done`). -/
noncomputable def stepBatch (params : SimulationParams) (now : ℝ)
    (draws : ℕ → ℕ → ℝ × ℝ) (st : WorkerState) : WorkerState × List WorkerEvent :=
  if st.status ≠ WorkerStatus.running then (st, [])
  else
    let idxs := MonteCarloWorker.batchIters params.iterations st.batchIndex
    let newResults := st.results ++ idxs.map (MonteCarloWorker.outcomeAt params now draws)
    let completed := st.completed + idxs.length
    let progressEvt := WorkerEvent.progress ((completed : ℝ) / (params.iterations : ℝ) * 100) completed
    let totalBatches := (params.iterations + 99) / 100
    if st.batchIndex < totalBatches - 1 then
      ({ status := WorkerStatus.running, batchIndex := st.batchIndex + 1,
         completed := completed, results := newResults }, [progressEvt])
    else
      ({ status := WorkerStatus.done, batchIndex := st.batchIndex + 1,
         completed := completed, results := newResults },
        [progressEvt, WorkerEvent.complete newResults])

/-- Deliver a list of control messages to the worker, in order. -/
def deliver (st : WorkerState) (msgs : List WorkerMsg) : WorkerState × List WorkerEvent :=
  msgs.foldl (fun acc m =>
    let r := handleMessage acc.1 m
    (r.1, acc.2 ++ r.2)) (st, [])

/-- Run the event loop: before each batch macrotask, deliver the messages that
arrived in the gap preceding it (`gaps` lists one gap per batch), then step
the batch.  Returns the final state and the full ordered event trace. -/
noncomputable def execGaps (params : SimulationParams) (now : ℝ)
    (draws : ℕ → ℕ → ℝ × ℝ) (st : WorkerState) : List (List WorkerMsg) → WorkerState × List WorkerEvent
  | [] => (st, [])
  | gap :: rest =>
      let d := deliver st gap
      let s := stepBatch params now draws d.1
      let r := execGaps params now draws s.1 rest
      (r.1, d.2 ++ s.2 ++ r.2)

end MonteCarloWorker

/-! ## Statistics engine (client/src/lib/statistics.ts) -/

namespace Statistics

/-- The `Statistics` interface of statistics.ts (the spec's StatisticsSummary). -/
structure StatisticsSummary where
  mean : ℝ
  median : ℝ
  mode : Option ℝ
  stdDev : ℝ
  variance : ℝ
  min : ℝ
  max : ℝ
  range : ℝ
  p5 : ℝ
  p10 : ℝ
  p25 : ℝ
  p50 : ℝ
  p75 : ℝ
  p90 : ℝ
  p95 : ℝ
  skewness : ℝ
  kurtosis : ℝ
  count : ℕ

/-- The `percentile(sortedData, p)` helper: throws outside `[0, 100]`, returns
0 on an empty list, the single element on a singleton, and otherwise linearly
interpolates between the order statistics bracketing `index = p/100 * (n-1)`.
Generic over the number type so it can be run on `ℚ` and used on `ℝ`. -/
def percentile {α : Type} [LinearOrderedField α] [FloorRing α]
    (sortedData : List α) (p : α) : Except String α :=
  if p < 0 ∨ p > 100 then Except.error "Percentile must be between 0 and 100"
  else
    let n := sortedData.length
    if n = 0 then Except.ok 0
    else if n = 1 then Except.ok (sortedData.getD 0 0)
    else
      let index := p / 100 * ((n : α) - 1)
      let lower := ⌊index⌋
      let upper := ⌈index⌉
      if lower = upper then Except.ok (sortedData.getD lower.toNat 0)
      else
        let weight := index - (lower : α)
        Except.ok (sortedData.getD lower.toNat 0 * (1 - weight)
          + sortedData.getD upper.toNat 0 * weight)

/-- First occurrences of the values of a list, in order: the key insertion
order of the `Map` built by `calculateMode`. -/
noncomputable def uniqKeys : List ℝ → List ℝ
  | [] => []
  | x :: xs => x :: uniqKeys (xs.filter (fun y => y ≠ x))
termination_by l => l.length
decreasing_by simpa using Nat.lt_succ_of_le (List.length_filter_le _ xs)

/-- `calculateMode(data)`: frequency count by exact equality, iterated in key
insertion order with a strict `>` update, returning the mode only when its
frequency exceeds 1. -/
noncomputable def calculateMode (data : List ℝ) : Option ℝ :=
  let folded := (uniqKeys data).foldl
    (fun acc v =>
      let freq := data.countP (fun y => y = v)
      if freq > acc.1 then (freq, some v) else acc)
    ((0 : ℕ), (none : Option ℝ))
  if folded.1 > 1 then folded.2 else none

/-- `calculateSkewness(data, mean, stdDev)`: 0 when `stdDev` is 0, else the
bias-adjusted sample skewness. -/
noncomputable def calculateSkewness (data : List ℝ) (mean stdDev : ℝ) : ℝ :=
  if stdDev = 0 then 0
  else
    let n := data.length
    let sum := data.foldl (fun acc val => acc + ((val - mean) / stdDev) ^ 3) 0
    ((n : ℝ) / (((n : ℝ) - 1) * ((n : ℝ) - 2))) * sum

/-- `calculateKurtosis(data, mean, stdDev)`: 0 when `stdDev` is 0, else the
bias-adjusted sample excess kurtosis. -/
noncomputable def calculateKurtosis (data : List ℝ) (mean stdDev : ℝ) : ℝ :=
  if stdDev = 0 then 0
  else
    let n := data.length
    let sum := data.foldl (fun acc val => acc + ((val - mean) / stdDev) ^ 4) 0
    let numerator := (n : ℝ) * ((n : ℝ) + 1) * sum
    let denominator := ((n : ℝ) - 1) * ((n : ℝ) - 2) * ((n : ℝ) - 3)
    let adjustment := 3 * ((n : ℝ) - 1) ^ 2 / (((n : ℝ) - 2) * ((n : ℝ) - 3))
    numerator / denominator - adjustment

/-- `calculateStatistics(data)`: throws on an empty dataset, otherwise the full
summary.  Division follows Lean's total-division convention in the `n = 1`
variance corner (JS produces `NaN` there); no claim depends on that corner. -/
noncomputable def calculateStatistics (data : List ℝ) : Except String StatisticsSummary :=
  if data.length = 0 then Except.error "Cannot calculate statistics for empty dataset"
  else
    let sorted := data.insertionSort (· ≤ ·)
    let n := data.length
    let sum := data.foldl (fun acc val => acc + val) 0
    let mean := sum / (n : ℝ)
    let mn := sorted.getD 0 0
    let mx := sorted.getD (n - 1) 0
    do
      let median ← percentile sorted 50
      let p5 ← percentile sorted 5
      let p10 ← percentile sorted 10
      let p25 ← percentile sorted 25
      let p75 ← percentile sorted 75
      let p90 ← percentile sorted 90
      let p95 ← percentile sorted 95
      let variance := data.foldl (fun acc val => acc + (val - mean) ^ 2) 0 / ((n : ℝ) - 1)
      let stdDev := Real.sqrt variance
      Except.ok
        { mean := mean, median := median, mode := calculateMode data
          stdDev := stdDev, variance := variance
          min := mn, max := mx, range := mx - mn
          p5 := p5, p10 := p10, p25 := p25, p50 := median, p75 := p75, p90 := p90, p95 := p95
          skewness := calculateSkewness data mean stdDev
          kurtosis := calculateKurtosis data mean stdDev
          count := n }

/-- One histogram bin of `generateHistogram`. -/
structure HistogramBin where
  binStart : ℚ
  binEnd : ℚ
  count : ℕ
  frequency : ℚ
  density : ℚ
deriving DecidableEq

/-- `Math.min(...data)` over a non-empty spread (the empty case is only
reached behind `generateHistogram`'s empty-input guard). -/
def jsMinList : List ℚ → ℚ
  | [] => 0
  | x :: xs => xs.foldl min x

/-- `Math.max(...data)` over a non-empty spread. -/
def jsMaxList : List ℚ → ℚ
  | [] => 0
  | x :: xs => xs.foldl max x

/-- `generateHistogram(data, bins)`: partitions `[min, max]` into `bins` bins
and counts membership with `binIndex = Math.min(Math.floor((value - min) / binWidth), bins - 1)`.
JS float corner cases of that expression are modeled explicitly: when
`binWidth = 0` and `value = min` the quotient is `0/0 = NaN`, `histogram[NaN]`
is `undefined`, and `.count++` throws a `TypeError`; when `binWidth = 0` and
`value > min` the quotient is `+Infinity` and `Math.min` yields `bins - 1`
(unreachable, since every value then equals `min = max`).  Every call site
passes the default `bins = 30`, so the `bins = 0` division corner is not
exercised. -/
def generateHistogram (data : List ℚ) (bins : ℕ) : Except String (List HistogramBin) :=
  if data.length = 0 then Except.ok []
  else
    let mn := jsMinList data
    let mx := jsMaxList data
    let binWidth := (mx - mn) / (bins : ℚ)
    do
      let idxs ← data.mapM (fun value =>
        if binWidth = 0 then
          if value = mn then Except.error "TypeError: cannot read count of undefined"
          else Except.ok (bins - 1)
        else Except.ok (Nat.min (Int.toNat ⌊(value - mn) / binWidth⌋) (bins - 1)))
      Except.ok ((List.range bins).map (fun i =>
        { binStart := mn + (i : ℚ) * binWidth
          binEnd := mn + ((i : ℚ) + 1) * binWidth
          count := idxs.count i
          frequency := (idxs.count i : ℚ) / (data.length : ℚ)
          density := ((idxs.count i : ℚ) / (data.length : ℚ)) / binWidth }))

/-- `calculatePercentileRank(value, data)`: 0 on empty data; otherwise the
index of the first sorted element `>= value` (list length standing for the
source's `-1`, mapped to 100), scaled by `100 / n`. -/
def calculatePercentileRank (value : ℚ) (data : List ℚ) : ℚ :=
  let sorted := data.insertionSort (· ≤ ·)
  let n := sorted.length
  if n = 0 then 0
  else
    let index := sorted.findIdx (fun v => value ≤ v)
    if index = n then 100 else (index : ℚ) / (n : ℚ) * 100

end Statistics

/-! ## Quote evaluator (client/src/components/decision/quote-analyzer.tsx)

The decision math inside `analyzeQuote` is pure arithmetic on the quote rate,
the lane baseline and the simulated rate set, so it is embedded over `ℚ`.
The mock simulation results that `analyzeQuote` generates with `Math.random`
are passed in as the `simResults` argument (the random stream made explicit);
of the `calculateStatistics` summary only the `mean` field is consumed, which
is `sum / n` exactly as computed there. -/

namespace QuoteAnalyzer

/-- The recommendation union of `QuoteEvaluation`. -/
inductive Recommendation where
  | BOOK_NOW
  | WAIT
  | NEGOTIATE
  | REJECT
deriving DecidableEq

/-- `QuoteEvaluation` from shared/schema.ts. -/
structure QuoteEvaluation where
  marketVariance : ℚ
  modelVariance : ℚ
  percentile : ℚ
  riskScore : ℚ
  recommendation : Recommendation
  confidence : ℚ
deriving DecidableEq

/-- The local `calculatePercentile(value, data)` of quote-analyzer.tsx: sort
ascending, find the first element `>= value` (`List.findIdx` returns the
length where `findIndex` returns `-1`, which the source maps to 100), and
scale the index by `100 / n`. -/
def calculatePercentile (value : ℚ) (data : List ℚ) : ℚ :=
  let sorted := data.insertionSort (· ≤ ·)
  let index := sorted.findIdx (fun v => value ≤ v)
  if index = sorted.length then 100 else (index : ℚ) / (sorted.length : ℚ) * 100

/-- The risk-scoring block of `analyzeQuote` (the initial `riskScore = 5.0` is
dead, as the if/else-if/else chain covers every percentile). -/
def riskScoreOf (percentile : ℚ) : ℚ :=
  if percentile < 25 then 2 + percentile / 25 * 2
  else if percentile < 75 then 4 + (percentile - 25) / 50 * 3
  else 7 + (percentile - 75) / 25 * 3

/-- The recommendation block of `analyzeQuote`: four sequential reassignments
of `recommendation`, starting from the `'BOOK_NOW'` initializer. -/
def recommendationOf (percentile marketVariance : ℚ) : Recommendation :=
  let r0 := Recommendation.BOOK_NOW
  let r1 := if percentile > 75 then Recommendation.NEGOTIATE else r0
  let r2 := if percentile > 90 then Recommendation.REJECT else r1
  let r3 := if percentile < 10 then Recommendation.BOOK_NOW else r2
  if percentile ≥ 10 ∧ percentile ≤ 40 ∧ marketVariance > -(5 / 100) then Recommendation.WAIT
  else r3

/-- The confidence line of `analyzeQuote`:
`Math.min(95, 60 + (40 - Math.abs(percentile - 50)))`. -/
def confidenceOf (percentile : ℚ) : ℚ :=
  min 95 (60 + (40 - |percentile - 50|))

/-- The evaluation built by `analyzeQuote`: baseline from the lane
(`indexValue * laneRatio`), market/model variances, percentile of the quote in
the simulated rates, risk score, recommendation and confidence. -/
def analyzeQuote (quoteRate indexValue laneRatio : ℚ) (simResults : List ℚ) : QuoteEvaluation :=
  let baseRate := indexValue * laneRatio
  let marketVariance := (quoteRate - baseRate) / baseRate
  let mean := simResults.sum / (simResults.length : ℚ)
  let percentile := calculatePercentile quoteRate simResults
  let modelVariance := (quoteRate - mean) / mean
  { marketVariance := marketVariance
    modelVariance := modelVariance
    percentile := percentile
    riskScore := riskScoreOf percentile
    recommendation := recommendationOf percentile marketVariance
    confidence := confidenceOf percentile }

end QuoteAnalyzer

/-! ## Alternative strategy evaluator
(client/src/components/decision/alternative-evaluator.tsx) -/

namespace AlternativeEvaluator

/-- The strategy type union of `AlternativeResult`. -/
inductive AltType where
  | book
  | wait
  | split
  | reroute
deriving DecidableEq

/-- Qualitative risk level of an alternative. -/
inductive RiskLevel where
  | low
  | medium
  | high
deriving DecidableEq

/-- `AlternativeResult`, restricted to the fields the decision logic reads
(`name` kept as identification; the display-only strings `description`,
`timeToDecision`, `pros`, `cons` and the `parameters` bag are omitted). -/
structure AlternativeResult where
  type : AltType
  name : String
  expectedCost : ℚ
  confidence : ℚ
  riskLevel : RiskLevel
deriving DecidableEq

/-- The `alternatives` array built inside `runAlternativeAnalysis` for a given
quote rate (`baseRate = quote.rate`, `holdingCostPerDay = baseRate * 0.001`). -/
def alternatives (quoteRate : ℚ) : List AlternativeResult :=
  let baseRate := quoteRate
  let holdingCostPerDay := baseRate * 0.001
  [ { type := AltType.book, name := "Book Now"
      expectedCost := baseRate, confidence := 95, riskLevel := RiskLevel.low }
  , { type := AltType.wait, name := "Wait 1 Week"
      expectedCost := baseRate * 0.94 + holdingCostPerDay * 7
      confidence := 67, riskLevel := RiskLevel.medium }
  , { type := AltType.split, name := "Split 30/70"
      expectedCost := baseRate * 0.3 + (baseRate * 0.94 + holdingCostPerDay * 7) * 0.7
      confidence := 78, riskLevel := RiskLevel.medium }
  , { type := AltType.reroute, name := "Alternative Route"
      expectedCost := baseRate * 1.05
      confidence := 45, riskLevel := RiskLevel.high } ]

/-- `getRecommendedAlternative()`: filter to `confidence > 60`, sort ascending
by expected cost (JS sort is stable; modeled by stable insertion sort), take
the first element, `null` when none remains.  The source reads the results
from component state; here they are the argument. -/
def getRecommendedAlternative (results : List AlternativeResult) : Option AlternativeResult :=
  ((results.filter (fun alt => alt.confidence > 60)).insertionSort
    (fun a b => a.expectedCost ≤ b.expectedCost)).head?

end AlternativeEvaluator

/-! ## Concrete scenario instances used by the claims -/

/-- Modelled from the spec: the standard median of a sample list — the middle
element for odd length, the average of the two middle elements for even
length.  Used only as the specification side of the C7 refinement. -/
def medianSpec (l : List ℚ) : ℚ :=
  if l.length % 2 = 1 then l.getD (l.length / 2) 0
  else (l.getD (l.length / 2 - 1) 0 + l.getD (l.length / 2) 0) / 2

/-- The transit-segment parameters of the C2 counterexample: a lognormal
segment with `mu = -3` configured in its parameter bag. -/
noncomputable def c2segment : TransitSegment :=
  { name := "Ocean Leg", baselineDays := 10, distribution := SegmentDist.lognormal
    parameters := { mu := some (-3) } }

/-- The C5 scenario's rate factor: Normal, `meanMultiplier = 1.0`, and
`stdDev` explicitly configured to 0. -/
noncomputable def c5factor : RateFactor :=
  { name := "Carrier Premium", type := "carrierPremium", meanMultiplier := 1
    distribution := FactorDist.normal, parameters := { stdDev := some 0 }, enabled := true }

/-- The C5 scenario's transit segment: Normal, `baselineDays = 10`, and
`stdDev` explicitly configured to 0. -/
noncomputable def c5segment : TransitSegment :=
  { name := "Ocean Leg", baselineDays := 10, distribution := SegmentDist.normal
    parameters := { stdDev := some 0 } }

/-- The C5 scenario: `baseRate = 1000`, one enabled factor, one segment,
50 iterations. -/
noncomputable def c5params : SimulationParams :=
  { iterations := 50, baseRate := 1000, factors := [c5factor], segments := [c5segment] }

/-- Uniform draws whose Box–Muller transform is the standard normal value -1
at every sampler call. -/
noncomputable def c5draws : ℕ → ℕ → ℝ × ℝ := fun _ _ => (Real.exp (-(1 : ℝ) / 2), 1 / 2)

/-- Discriminator for the terminal `complete` event. -/
def isComplete : MonteCarloWorker.WorkerEvent → Bool
  | MonteCarloWorker.WorkerEvent.complete _ => true
  | _ => false

/-- The C3 scenario: 200 iterations, i.e. two batches of 100. -/
noncomputable def c3params : SimulationParams :=
  { iterations := 200, baseRate := 1000, factors := [], segments := [] }

/-- Fixed uniform draws for the C3 scenario (their values are irrelevant to
the control flow). -/
noncomputable def c3draws : ℕ → ℕ → ℝ × ℝ := fun _ _ => (1 / 2, 1 / 2)

/-- The worker state of the C3 scenario after the start message and the first
batch macrotask, before any second-gap message is delivered. -/
noncomputable def c3afterBatch1 : MonteCarloWorker.WorkerState :=
  (MonteCarloWorker.execGaps c3params 0 c3draws
    (MonteCarloWorker.handleMessage MonteCarloWorker.initialWorkerState
      MonteCarloWorker.WorkerMsg.start).1 [[]]).1

/-! ## Helper lemmas -/

/-- Folding `min` from a value over copies of that value returns the value. -/
lemma foldl_min_eq_self (l : List ℚ) (v : ℚ) (h : ∀ y ∈ l, y = v) :
    l.foldl min v = v := by
  induction l with
  | nil => rfl
  | cons x xs ih =>
      have hx : x = v := h x (List.mem_cons_self _ _)
      simp only [List.foldl_cons, hx, min_self]
      exact ih fun y hy => h y (List.mem_cons_of_mem _ hy)

/-- Folding `max` from a value over copies of that value returns the value. -/
lemma foldl_max_eq_self (l : List ℚ) (v : ℚ) (h : ∀ y ∈ l, y = v) :
    l.foldl max v = v := by
  induction l with
  | nil => rfl
  | cons x xs ih =>
      have hx : x = v := h x (List.mem_cons_self _ _)
      simp only [List.foldl_cons, hx, max_self]
      exact ih fun y hy => h y (List.mem_cons_of_mem _ hy)

/-- On a `≤`-sorted list, the index of the first element `≥ q` is the number of
elements strictly below `q`. -/
lemma findIdx_eq_countP_lt (q : ℚ) (l : List ℚ) (hs : List.Sorted (· ≤ ·) l) :
    l.findIdx (fun v => q ≤ v) = l.countP (fun v => v < q) := by
  induction l with
  | nil => simp
  | cons x xs ih =>
      rw [List.sorted_cons] at hs
      by_cases hx : q ≤ x
      · have hnone : ∀ y ∈ x :: xs, ¬ (y < q) := by
          intro y hy
          rcases List.mem_cons.mp hy with rfl | hy'
          · exact not_lt.mpr hx
          · exact not_lt.mpr (hx.trans (hs.1 y hy'))
        have h0 : List.countP (fun v => decide (v < q)) (x :: xs) = 0 :=
          List.countP_eq_zero.mpr (fun a ha => by simpa using hnone a ha)
        rw [List.findIdx_cons, h0, decide_eq_true hx]
        rfl
      · rw [List.findIdx_cons, List.countP_cons, decide_eq_false hx,
          decide_eq_true (lt_of_not_le hx)]
        rw [ih hs.2]
        simp

/-- Monotonicity of the percentile-rank expression
`if c = n then 100 else c / n * 100` in the count `c ≤ n`. -/
lemma rank_expr_mono (c1 c2 n : ℕ) (h12 : c1 ≤ c2) (h2n : c2 ≤ n) :
    (if c1 = n then (100 : ℚ) else (c1 : ℚ) / (n : ℚ) * 100)
      ≤ (if c2 = n then (100 : ℚ) else (c2 : ℚ) / (n : ℚ) * 100) := by
  split_ifs with ha hb hb
  · exact le_refl _
  · exact absurd (by omega : c2 = n) hb
  · have hn : 0 < n := by omega
    have hnq : (0 : ℚ) < (n : ℚ) := by exact_mod_cast hn
    have h1 : (c1 : ℚ) / (n : ℚ) ≤ 1 := by
      rw [div_le_one hnq]
      exact_mod_cast le_trans h12 h2n
    calc (c1 : ℚ) / (n : ℚ) * 100 ≤ 1 * 100 := mul_le_mul_of_nonneg_right h1 (by norm_num)
    _ = 100 := one_mul 100
  · have hn : 0 < n := by omega
    have hnq : (0 : ℚ) < (n : ℚ) := by exact_mod_cast hn
    have hc12 : (c1 : ℚ) ≤ (c2 : ℚ) := by exact_mod_cast h12
    have key : 0 ≤ ((c2 : ℚ) - (c1 : ℚ)) * ((n : ℚ))⁻¹ * 100 :=
      mul_nonneg (mul_nonneg (sub_nonneg.mpr hc12) (inv_nonneg.mpr hnq.le)) (by norm_num)
    rw [div_eq_mul_inv, div_eq_mul_inv]
    nlinarith [key]

/-- Shared form of the two percentile-rank functions on non-empty data. -/
lemma calculatePercentile_eq_countP (q : ℚ) (data : List ℚ) (h : data ≠ []) :
    QuoteAnalyzer.calculatePercentile q data
      = (data.countP (fun v => v < q) : ℚ) / (data.length : ℚ) * 100 := by
  unfold QuoteAnalyzer.calculatePercentile
  have hperm := List.perm_insertionSort (· ≤ ·) data
  have hsort := List.sorted_insertionSort (· ≤ ·) data
  have hlen : (data.insertionSort (· ≤ ·)).length = data.length := hperm.length_eq
  have hidx := findIdx_eq_countP_lt q (data.insertionSort (· ≤ ·)) hsort
  have hcnt : (data.insertionSort (· ≤ ·)).countP (fun v => decide (v < q))
      = data.countP (fun v => decide (v < q)) := hperm.countP_eq _
  have hn : 0 < data.length := List.length_pos.mpr h
  simp only [hidx, hcnt, hlen]
  split_ifs with hc
  · rw [hc]
    field_simp
  · rfl

/-! ## Claims -/

/-- C8: computing a statistics summary on an empty sample collection always
fails with the empty-dataset error; no summary value (zeros or otherwise) is
returned. -/
theorem claim_C8 : Statistics.calculateStatistics ([] : List ℝ)
    = Except.error "Cannot calculate statistics for empty dataset" := rfl

/-- C10: for every non-empty input whose values are all equal (`min = max`),
histogram generation fails with the runtime type error produced by indexing
the bin array at the `NaN` bin index, instead of returning bins. -/
theorem claim_C10 (data : List ℚ) (h : data ≠ [])
    (hc : ∀ a ∈ data, ∀ b ∈ data, a = b) :
    Statistics.generateHistogram data 30
      = Except.error "TypeError: cannot read count of undefined" := by
  obtain ⟨v, rest, rfl⟩ := List.exists_cons_of_ne_nil h
  have hrest : ∀ y ∈ rest, y = v := fun y hy =>
    hc y (List.mem_cons_of_mem _ hy) v (List.mem_cons_self _ _)
  have hmin : Statistics.jsMinList (v :: rest) = v := foldl_min_eq_self rest v hrest
  have hmax : Statistics.jsMaxList (v :: rest) = v := foldl_max_eq_self rest v hrest
  simp [Statistics.generateHistogram, hmin, hmax, List.mapM, List.mapM.loop,
    Bind.bind, Except.bind]

/-- C10 witness: the histogram of the constant dataset `[5, 5, 5]` is the type
error. -/
theorem claim_C10_witness :
    (([5, 5, 5] : List ℚ) ≠ [] ∧ ∀ a ∈ ([5, 5, 5] : List ℚ), ∀ b ∈ ([5, 5, 5] : List ℚ), a = b) ∧
    Statistics.generateHistogram [5, 5, 5] 30
      = Except.error "TypeError: cannot read count of undefined" :=
  ⟨⟨by decide, by decide⟩, claim_C10 [5, 5, 5] (by decide) (by decide)⟩

/-- C1 counterexample: the quote 50 sits at percentile exactly 90 of the ten
simulated rates `[1, ..., 9, 100]`, and the evaluator recommends NEGOTIATE
there, not REJECT (the REJECT threshold `percentile > 90` is strict). -/
theorem claim_C1_counterexample :
    (QuoteAnalyzer.analyzeQuote 50 50 1 [1, 2, 3, 4, 5, 6, 7, 8, 9, 100]).percentile = 90 ∧
    (QuoteAnalyzer.analyzeQuote 50 50 1 [1, 2, 3, 4, 5, 6, 7, 8, 9, 100]).recommendation
      = QuoteAnalyzer.Recommendation.NEGOTIATE := by
  constructor <;>
    norm_num [QuoteAnalyzer.analyzeQuote, QuoteAnalyzer.calculatePercentile,
      QuoteAnalyzer.recommendationOf, List.insertionSort, List.orderedInsert,
      List.findIdx_cons]

/-- C1 amended: at a computed percentile of exactly 90 the recommendation is
NEGOTIATE (both REJECT thresholds being strict `>`); for any percentile
strictly above 90 the recommendation is REJECT, which overrides NEGOTIATE. -/
theorem claim_C1_amended :
    (∀ mv : ℚ, QuoteAnalyzer.recommendationOf 90 mv = QuoteAnalyzer.Recommendation.NEGOTIATE) ∧
    ∀ (p mv : ℚ), 90 < p →
      QuoteAnalyzer.recommendationOf p mv = QuoteAnalyzer.Recommendation.REJECT := by
  constructor
  · intro mv
    norm_num [QuoteAnalyzer.recommendationOf]
  · intro p mv hp
    have c1 : p > 75 := by linarith
    have c3 : ¬ (p < 10) := by linarith
    have c4 : ¬ (p ≥ 10 ∧ p ≤ 40 ∧ mv > -(5 / 100)) := fun hh => by linarith [hh.2.1]
    simp [QuoteAnalyzer.recommendationOf, c1, hp, c3, c4]

/-- C1 witness: the amended statement at percentile 90 and at percentile 91. -/
theorem claim_C1_witness :
    QuoteAnalyzer.recommendationOf 90 0 = QuoteAnalyzer.Recommendation.NEGOTIATE ∧
    (90 : ℚ) < 91 ∧
    QuoteAnalyzer.recommendationOf 91 0 = QuoteAnalyzer.Recommendation.REJECT :=
  ⟨claim_C1_amended.1 0, by norm_num, claim_C1_amended.2 91 0 (by norm_num)⟩

/-- C6: both percentile-rank computations (the quote analyzer's
`calculatePercentile` and the statistics library's `calculatePercentileRank`)
are monotone in the quote for a fixed sample set, and on non-empty data the
rank is the fraction of samples strictly less than the quote scaled to 0-100. -/
theorem claim_C6 (data : List ℚ) (q1 q2 : ℚ) (h : q1 ≤ q2) :
    QuoteAnalyzer.calculatePercentile q1 data ≤ QuoteAnalyzer.calculatePercentile q2 data ∧
    Statistics.calculatePercentileRank q1 data ≤ Statistics.calculatePercentileRank q2 data ∧
    (data ≠ [] →
      QuoteAnalyzer.calculatePercentile q1 data
        = (data.countP (fun v => v < q1) : ℚ) / (data.length : ℚ) * 100) := by
  have hperm := List.perm_insertionSort (· ≤ ·) data
  have hsort := List.sorted_insertionSort (· ≤ ·) data
  have hlen : (data.insertionSort (· ≤ ·)).length = data.length := hperm.length_eq
  have hidx1 := findIdx_eq_countP_lt q1 (data.insertionSort (· ≤ ·)) hsort
  have hidx2 := findIdx_eq_countP_lt q2 (data.insertionSort (· ≤ ·)) hsort
  have hmono : (data.insertionSort (· ≤ ·)).countP (fun v => decide (v < q1))
      ≤ (data.insertionSort (· ≤ ·)).countP (fun v => decide (v < q2)) :=
    List.countP_mono_left (fun x _ hx => by
      simp only [decide_eq_true_eq] at hx ⊢
      exact lt_of_lt_of_le hx h)
  have hle1 := List.countP_le_length (fun v => decide (v < q1))
    (l := data.insertionSort (· ≤ ·))
  have hle2 := List.countP_le_length (fun v => decide (v < q2))
    (l := data.insertionSort (· ≤ ·))
  refine ⟨?_, ?_, fun hne => calculatePercentile_eq_countP q1 data hne⟩
  · unfold QuoteAnalyzer.calculatePercentile
    simp only [hidx1, hidx2]
    exact rank_expr_mono _ _ _ hmono hle2
  · unfold Statistics.calculatePercentileRank
    simp only [hidx1, hidx2]
    by_cases h0 : (data.insertionSort (· ≤ ·)).length = 0
    · simp [h0]
    · rw [if_neg h0, if_neg h0]
      exact rank_expr_mono _ _ _ hmono hle2

/-- C6 witness: monotonicity and the rank characterization at the sample set
`[1, 2, 3]` with quotes 2 and 3. -/
theorem claim_C6_witness :
    (2 : ℚ) ≤ 3 ∧
    (QuoteAnalyzer.calculatePercentile 2 [1, 2, 3] ≤ QuoteAnalyzer.calculatePercentile 3 [1, 2, 3] ∧
    Statistics.calculatePercentileRank 2 [1, 2, 3] ≤ Statistics.calculatePercentileRank 3 [1, 2, 3] ∧
    (([1, 2, 3] : List ℚ) ≠ [] →
      QuoteAnalyzer.calculatePercentile 2 [1, 2, 3]
        = ((([1, 2, 3] : List ℚ).countP (fun v => v < 2)) : ℚ) / ((([1, 2, 3] : List ℚ).length) : ℚ) * 100)) :=
  ⟨by norm_num, claim_C6 [1, 2, 3] 2 3 (by norm_num)⟩

/-- C7: on every non-empty sorted sample list, the interpolating `percentile`
at `p = 50` computes exactly the standard median. -/
theorem claim_C7 (l : List ℚ) (h : l ≠ []) (_hs : List.Sorted (· ≤ ·) l) :
    Statistics.percentile l 50 = Except.ok (medianSpec l) := by
  have hn : l.length ≠ 0 := fun h0 => h (List.length_eq_zero.mp h0)
  simp only [Statistics.percentile, medianSpec]
  rw [if_neg (by norm_num : ¬ ((50 : ℚ) < 0 ∨ (50 : ℚ) > 100)), if_neg hn]
  by_cases h1 : l.length = 1
  · rw [if_pos h1, h1]
    norm_num
  · rw [if_neg h1]
    have h2 : 2 ≤ l.length := by omega
    rcases Nat.even_or_odd l.length with he | ho
    · obtain ⟨k, hk⟩ := he
      have hk1 : 1 ≤ k := by omega
      have hidx : (50 : ℚ) / 100 * ((l.length : ℚ) - 1) = (k : ℚ) - 1 / 2 := by
        rw [hk]
        push_cast
        ring
      have hfl : ⌊(k : ℚ) - 1 / 2⌋ = (k : ℤ) - 1 := by
        rw [Int.floor_eq_iff]
        constructor <;> [skip; skip] <;> push_cast <;> linarith
      have hcl : ⌈(k : ℚ) - 1 / 2⌉ = (k : ℤ) := by
        rw [Int.ceil_eq_iff]
        constructor <;> push_cast <;> linarith
      rw [hidx, hfl, hcl, if_neg (by omega : ¬ ((k : ℤ) - 1 = (k : ℤ)))]
      have ht1 : ((k : ℤ) - 1).toNat = k - 1 := by omega
      have ht2 : ((k : ℤ)).toNat = k := by omega
      have hm : ¬ (l.length % 2 = 1) := by omega
      have hd : l.length / 2 = k := by omega
      rw [ht1, ht2, if_neg hm, hd]
      push_cast
      ring_nf
    · obtain ⟨k, hk⟩ := ho
      have hidx : (50 : ℚ) / 100 * ((l.length : ℚ) - 1) = (k : ℚ) := by
        rw [hk]
        push_cast
        ring
      have hfl : ⌊(k : ℚ)⌋ = (k : ℤ) := Int.floor_natCast k
      have hcl : ⌈(k : ℚ)⌉ = (k : ℤ) := Int.ceil_natCast k
      rw [hidx, hfl, hcl, if_pos rfl]
      have ht2 : ((k : ℤ)).toNat = k := by omega
      have hm : l.length % 2 = 1 := by omega
      have hd : l.length / 2 = k := by omega
      rw [ht2, if_pos hm, hd]

/-- C7 witness: the even-length sorted list `[1, 2, 3, 4]` (non-empty and
sorted), where the 50th percentile equals the median. -/
theorem claim_C7_witness :
    (([1, 2, 3, 4] : List ℚ) ≠ [] ∧ List.Sorted (· ≤ ·) ([1, 2, 3, 4] : List ℚ)) ∧
    Statistics.percentile ([1, 2, 3, 4] : List ℚ) 50
      = Except.ok (medianSpec [1, 2, 3, 4]) :=
  ⟨⟨by decide, by decide⟩, claim_C7 [1, 2, 3, 4] (by decide) (by decide)⟩

/-- The strategy returned by `getRecommendedAlternative` belongs to the
confidence-filtered list and has minimal expected cost within it. -/
lemma recommended_mem_min (results : List AlternativeEvaluator.AlternativeResult)
    (r : AlternativeEvaluator.AlternativeResult)
    (hr : AlternativeEvaluator.getRecommendedAlternative results = some r) :
    r ∈ results.filter (fun alt => alt.confidence > 60) ∧
    ∀ x ∈ results.filter (fun alt => alt.confidence > 60),
      r.expectedCost ≤ x.expectedCost := by
  classical
  unfold AlternativeEvaluator.getRecommendedAlternative at hr
  set f := results.filter (fun alt => alt.confidence > 60) with hf
  set le := fun a b : AlternativeEvaluator.AlternativeResult =>
    a.expectedCost ≤ b.expectedCost with hle
  haveI : IsTotal _ le := ⟨fun a b => le_total a.expectedCost b.expectedCost⟩
  haveI : IsTrans _ le := ⟨fun _ _ _ hab hbc => le_trans hab hbc⟩
  have hsorted := List.sorted_insertionSort le f
  have hperm := List.perm_insertionSort le f
  obtain ⟨t, hst⟩ : ∃ t, f.insertionSort le = r :: t := by
    cases hcase : f.insertionSort le with
    | nil => rw [hcase] at hr; simp at hr
    | cons a t =>
        rw [hcase] at hr
        simp only [List.head?_cons, Option.some.injEq] at hr
        exact ⟨t, by rw [hr]⟩
  rw [hst] at hsorted hperm
  rw [List.sorted_cons] at hsorted
  constructor
  · exact hperm.mem_iff.mp (List.mem_cons_self _ _)
  · intro x hx
    rcases List.mem_cons.mp (hperm.mem_iff.mpr hx) with rfl | hxt
    · exact le_refl _
    · exact hsorted.1 x hxt

/-- C9: for every quote rate, the recommended strategy exists, its confidence
exceeds the 60 floor, it has the lowest expected cost among the strategies
whose confidence exceeds the floor, and it is never the Reroute strategy
(whose confidence 45 is below the floor). -/
theorem claim_C9 (rate : ℚ) :
    ∃ r, AlternativeEvaluator.getRecommendedAlternative
        (AlternativeEvaluator.alternatives rate) = some r ∧
      60 < r.confidence ∧
      (∀ alt ∈ AlternativeEvaluator.alternatives rate,
        60 < alt.confidence → r.expectedCost ≤ alt.expectedCost) ∧
      r.type ≠ AlternativeEvaluator.AltType.reroute := by
  classical
  obtain ⟨r, hr⟩ : ∃ r, AlternativeEvaluator.getRecommendedAlternative
      (AlternativeEvaluator.alternatives rate) = some r := by
    unfold AlternativeEvaluator.getRecommendedAlternative
    cases hcase : ((AlternativeEvaluator.alternatives rate).filter
        (fun alt => alt.confidence > 60)).insertionSort
        (fun a b => a.expectedCost ≤ b.expectedCost) with
    | nil =>
        exfalso
        have hlen := (List.perm_insertionSort
          (fun a b : AlternativeEvaluator.AlternativeResult =>
            a.expectedCost ≤ b.expectedCost)
          ((AlternativeEvaluator.alternatives rate).filter
            (fun alt => alt.confidence > 60))).length_eq
        rw [hcase] at hlen
        norm_num [AlternativeEvaluator.alternatives, List.filter_cons] at hlen
    | cons a t => exact ⟨a, rfl⟩
  obtain ⟨hmem, hmin⟩ := recommended_mem_min _ r hr
  refine ⟨r, hr, ?_, ?_, ?_⟩
  · exact of_decide_eq_true (List.mem_filter.mp hmem).2
  · intro alt ha hconf
    exact hmin alt (List.mem_filter.mpr ⟨ha, decide_eq_true hconf⟩)
  · have hmem4 : r ∈ AlternativeEvaluator.alternatives rate := (List.mem_filter.mp hmem).1
    have hconf : (60 : ℚ) < r.confidence := of_decide_eq_true (List.mem_filter.mp hmem).2
    simp only [AlternativeEvaluator.alternatives, List.mem_cons, List.not_mem_nil,
      or_false] at hmem4
    rcases hmem4 with rfl | rfl | rfl | rfl
    · simp
    · simp
    · simp
    · norm_num at hconf

/-- C9 witness: the recommendation property instantiated at quote rate 100. -/
theorem claim_C9_witness :
    ∃ r, AlternativeEvaluator.getRecommendedAlternative
        (AlternativeEvaluator.alternatives 100) = some r ∧
      60 < r.confidence ∧
      (∀ alt ∈ AlternativeEvaluator.alternatives 100,
        60 < alt.confidence → r.expectedCost ≤ alt.expectedCost) ∧
      r.type ≠ AlternativeEvaluator.AltType.reroute :=
  claim_C9 100

/-- Closed form of the batch recursion: `k` batches starting at batch `b`
produce the outcomes for the contiguous iteration indices they cover. -/
lemma runBatches_eq (p : SimulationParams) (now : ℝ) (draws : ℕ → ℕ → ℝ × ℝ) :
    ∀ (k b : ℕ), MonteCarloWorker.runBatches p now draws k b
      = (List.range' (b * 100) (min p.iterations ((b + k) * 100) - b * 100)).map
          (MonteCarloWorker.outcomeAt p now draws)
  | 0, b => by
      have h0 : min p.iterations ((b + 0) * 100) - b * 100 = 0 := by omega
      rw [h0]
      simp [MonteCarloWorker.runBatches]
  | k + 1, b => by
      rw [MonteCarloWorker.runBatches, runBatches_eq p now draws k (b + 1),
        MonteCarloWorker.batchIters]
      rw [← List.map_append]
      congr 1
      by_cases hcase : b * 100 + 100 ≤ p.iterations
      · have h1 : min (b * 100 + 100) p.iterations - b * 100 = 100 := by omega
        rw [h1]
        have happ := List.range'_append (b * 100) 100
          (min p.iterations ((b + 1 + k) * 100) - (b + 1) * 100) 1
        rw [show b * 100 + 1 * 100 = (b + 1) * 100 by ring] at happ
        rw [happ]
        congr 1
        omega
      · have h1 : min (b * 100 + 100) p.iterations - b * 100
            = p.iterations - b * 100 := by omega
        have h2 : min p.iterations ((b + 1 + k) * 100) - (b + 1) * 100 = 0 := by omega
        rw [h1, h2]
        simp only [List.range'_zero, List.append_nil]
        congr 1
        omega

/-- The full orchestrator run lists the per-iteration outcomes in iteration
order, for iteration indices `0, ..., iterations - 1`. -/
lemma runMonteCarlo_eq_map (p : SimulationParams) (now : ℝ) (draws : ℕ → ℕ → ℝ × ℝ) :
    MonteCarloWorker.runMonteCarloSimulation p now draws
      = (List.range p.iterations).map (MonteCarloWorker.outcomeAt p now draws) := by
  unfold MonteCarloWorker.runMonteCarloSimulation
  rw [runBatches_eq]
  have h : min p.iterations ((0 + (p.iterations + 99) / 100) * 100) - 0 * 100
      = p.iterations := by omega
  rw [h, List.range_eq_range']

/-- C4: a completed run with `iterations = N > 0` yields exactly N outcomes,
and their iteration indices are exactly `0, 1, ..., N - 1` in order. -/
theorem claim_C4 (p : SimulationParams) (now : ℝ) (draws : ℕ → ℕ → ℝ × ℝ)
    (_h : 0 < p.iterations) :
    (MonteCarloWorker.runMonteCarloSimulation p now draws).length = p.iterations ∧
    (MonteCarloWorker.runMonteCarloSimulation p now draws).map SimulationResult.iteration
      = List.range p.iterations := by
  rw [runMonteCarlo_eq_map]
  refine ⟨by simp, ?_⟩
  rw [List.map_map]
  have h : SimulationResult.iteration ∘ MonteCarloWorker.outcomeAt p now draws = id :=
    funext fun i => rfl
  rw [h, List.map_id]

/-- C4 witness: a 250-iteration run (three batches) has 250 outcomes with
iteration indices `0, ..., 249`. -/
theorem claim_C4_witness :
    0 < (SimulationParams.mk 250 1000 [] []).iterations ∧
    (MonteCarloWorker.runMonteCarloSimulation (SimulationParams.mk 250 1000 [] []) 0
        (fun _ _ => (1 / 2, 1 / 2))).length = (SimulationParams.mk 250 1000 [] []).iterations ∧
    (MonteCarloWorker.runMonteCarloSimulation (SimulationParams.mk 250 1000 [] []) 0
        (fun _ _ => (1 / 2, 1 / 2))).map SimulationResult.iteration
      = List.range (SimulationParams.mk 250 1000 [] []).iterations :=
  ⟨by norm_num, claim_C4 _ 0 _ (by norm_num)⟩

/-- A Box–Muller draw with second uniform 1/4 hits `cos(pi/2) = 0`, so the
sampler returns its mean exactly. -/
lemma normalRandom_fourth (mean stdDev u : ℝ) :
    MonteCarloWorker.normalRandom mean stdDev u (1 / 4) = mean := by
  unfold MonteCarloWorker.normalRandom
  rw [show 2 * Real.pi * (1 / 4 : ℝ) = Real.pi / 2 by ring, Real.cos_pi_div_two]
  ring

/-- A Box–Muller draw with uniforms `exp(-1/2)` and `1/2` produces the standard
normal value `-1`, so the sampler returns `mean - stdDev`. -/
lemma normalRandom_neg_one (mean stdDev : ℝ) :
    MonteCarloWorker.normalRandom mean stdDev (Real.exp (-(1 : ℝ) / 2)) (1 / 2)
      = mean - stdDev := by
  unfold MonteCarloWorker.normalRandom
  rw [Real.log_exp, show 2 * Real.pi * (1 / 2 : ℝ) = Real.pi by ring, Real.cos_pi,
    show -2 * (-(1 : ℝ) / 2) = 1 by norm_num, Real.sqrt_one]
  ring

/-- `exp 3` exceeds 10. -/
lemma ten_lt_exp_three : (10 : ℝ) < Real.exp 3 := by
  have h := Real.exp_one_gt_d9
  have e3 : Real.exp 3 = Real.exp 1 * Real.exp 1 * Real.exp 1 := by
    rw [← Real.exp_add, ← Real.exp_add]
    norm_num
  nlinarith [Real.exp_pos 1]

/-- Every transit-segment sample is strictly positive: the normal branch is
clamped to at least 0.1 and the lognormal branch is an exponential. -/
lemma simulateTransitSegment_pos (seg : TransitSegment) (u v : ℝ) :
    0 < MonteCarloWorker.simulateTransitSegment seg u v := by
  unfold MonteCarloWorker.simulateTransitSegment
  cases seg.distribution with
  | normal =>
      exact lt_of_lt_of_le (by norm_num) (le_max_left 0.1 _)
  | lognormal =>
      exact Real.exp_pos _

/-- Nonnegativity of a left fold that only ever adds positive contributions. -/
lemma foldl_add_pos_nonneg {β : Type} (g : β → ℝ) (hg : ∀ x, 0 < g x) :
    ∀ (l : List β) (acc : ℝ), 0 ≤ acc → 0 ≤ l.foldl (fun a x => a + g x) acc
  | [], _, h => h
  | x :: xs, acc, h =>
      foldl_add_pos_nonneg g hg xs (acc + g x) (by linarith [hg x])

/-- C2 counterexample: a lognormal transit segment with `mu = -3` draws the
sample `exp(-3) < 0.1` (uniforms 1/2 and 1/4 give the standard normal draw 0),
so per-segment samples are not clamped to a minimum of 0.1 days. -/
theorem claim_C2_counterexample :
    MonteCarloWorker.simulateTransitSegment c2segment (1 / 2) (1 / 4) < 0.1 := by
  have hseg : MonteCarloWorker.simulateTransitSegment c2segment (1 / 2) (1 / 4)
      = Real.exp (-3 + 0.2 * MonteCarloWorker.normalRandom 0 1 (1 / 2) (1 / 4)) := by
    simp only [MonteCarloWorker.simulateTransitSegment, c2segment,
      MonteCarloWorker.lognormalRandom, jsOr]
    rw [if_neg (by norm_num : ¬ ((-3 : ℝ) = 0))]
  rw [hseg, normalRandom_fourth]
  have h1 : (-3 : ℝ) + 0.2 * 0 = -3 := by norm_num
  rw [h1]
  have hmul : Real.exp (-3 : ℝ) * Real.exp 3 = 1 := by
    rw [← Real.exp_add]
    norm_num
  nlinarith [Real.exp_pos (-3 : ℝ), ten_lt_exp_three,
    mul_pos (Real.exp_pos (-3 : ℝ)) (sub_pos.mpr ten_lt_exp_three)]

/-- C2 amended: every per-segment transit sample is strictly positive (the
normal branch is clamped to at least 0.1; the lognormal branch is positive but
can fall below 0.1), and hence the summed transit days of every outcome of a
run are nonnegative. -/
theorem claim_C2_amended :
    (∀ (seg : TransitSegment) (u v : ℝ),
      0 < MonteCarloWorker.simulateTransitSegment seg u v) ∧
    ∀ (p : SimulationParams) (now : ℝ) (draws : ℕ → ℕ → ℝ × ℝ)
      (r : SimulationResult), r ∈ MonteCarloWorker.runMonteCarloSimulation p now draws →
        0 ≤ r.transitDays := by
  refine ⟨simulateTransitSegment_pos, ?_⟩
  intro p now draws r hr
  rw [runMonteCarlo_eq_map] at hr
  obtain ⟨i, _hi, rfl⟩ := List.mem_map.mp hr
  show 0 ≤ (MonteCarloWorker.outcomeAt p now draws i).transitDays
  exact foldl_add_pos_nonneg
    (fun si => MonteCarloWorker.simulateTransitSegment si.2
      (draws i (p.factors.length + si.1)).1 (draws i (p.factors.length + si.1)).2)
    (fun si => simulateTransitSegment_pos _ _ _)
    p.segments.enum 0 le_rfl

/-- C2 witness: the positivity half at the counterexample segment, and the
nonnegative total of the single outcome of a one-iteration run. -/
theorem claim_C2_witness :
    0 < MonteCarloWorker.simulateTransitSegment c2segment (1 / 2) (1 / 4) ∧
    (MonteCarloWorker.outcomeAt (SimulationParams.mk 1 1000 [] [c2segment]) 0
        (fun _ _ => (1 / 2, 1 / 4)) 0)
      ∈ MonteCarloWorker.runMonteCarloSimulation (SimulationParams.mk 1 1000 [] [c2segment]) 0
        (fun _ _ => (1 / 2, 1 / 4)) ∧
    0 ≤ (MonteCarloWorker.outcomeAt (SimulationParams.mk 1 1000 [] [c2segment]) 0
        (fun _ _ => (1 / 2, 1 / 4)) 0).transitDays := by
  have hmem : (MonteCarloWorker.outcomeAt (SimulationParams.mk 1 1000 [] [c2segment]) 0
      (fun _ _ => (1 / 2, 1 / 4)) 0)
      ∈ MonteCarloWorker.runMonteCarloSimulation (SimulationParams.mk 1 1000 [] [c2segment]) 0
        (fun _ _ => (1 / 2, 1 / 4)) := by
    rw [runMonteCarlo_eq_map]
    exact List.mem_map_of_mem _ (by simp)
  exact ⟨claim_C2_amended.1 c2segment (1 / 2) (1 / 4), hmem,
    claim_C2_amended.2 _ 0 _ _ hmem⟩

/-- With `stdDev` configured to 0, the factor sample uses the 0.02 default
(`0 || 0.02` in JS) and, at the standard normal draw -1, returns 0.98. -/
lemma c5factor_sample :
    MonteCarloWorker.simulateRateFactor c5factor (Real.exp (-(1 : ℝ) / 2)) (1 / 2)
      = 0.98 := by
  simp [MonteCarloWorker.simulateRateFactor, c5factor, jsOr]
  rw [show ((2 : ℝ))⁻¹ = 1 / 2 by norm_num, normalRandom_neg_one]
  norm_num

/-- With `stdDev` configured to 0, the segment sample uses the
`baselineDays * 0.1 = 1` default and, at the standard normal draw -1,
returns `max 0.1 9 = 9`. -/
lemma c5segment_sample :
    MonteCarloWorker.simulateTransitSegment c5segment (Real.exp (-(1 : ℝ) / 2)) (1 / 2)
      = 9 := by
  simp [MonteCarloWorker.simulateTransitSegment, c5segment, jsOr]
  rw [show ((2 : ℝ))⁻¹ = 1 / 2 by norm_num, normalRandom_neg_one,
    show (10 : ℝ) - 10 * 0.1 = 9 by norm_num]
  exact max_eq_right (by norm_num)

/-- The single C5 iteration: rate 980, transit 9 days, zero delay cost. -/
lemma c5_single_eval :
    (MonteCarloWorker.runSingleIteration c5params 0 (c5draws 0)).rate = 980 ∧
    (MonteCarloWorker.runSingleIteration c5params 0 (c5draws 0)).transitDays = 9 ∧
    (MonteCarloWorker.runSingleIteration c5params 0 (c5draws 0)).delayCost = 0 ∧
    (MonteCarloWorker.runSingleIteration c5params 0 (c5draws 0)).totalLandedCost = 980 := by
  have hrate : (MonteCarloWorker.runSingleIteration c5params 0 (c5draws 0)).rate = 980 := by
    show List.foldl
      (fun acc fi => acc * MonteCarloWorker.simulateRateFactor fi.2
        ((c5draws 0) fi.1).1 ((c5draws 0) fi.1).2)
      c5params.baseRate c5params.factors.enum = 980
    simp only [c5params, List.enum, List.enumFrom, List.foldl_cons, List.foldl_nil, c5draws]
    rw [c5factor_sample]
    norm_num
  have htransit : (MonteCarloWorker.runSingleIteration c5params 0 (c5draws 0)).transitDays
      = 9 := by
    show List.foldl
      (fun acc si => acc + MonteCarloWorker.simulateTransitSegment si.2
        ((c5draws 0) (c5params.factors.length + si.1)).1
        ((c5draws 0) (c5params.factors.length + si.1)).2)
      0 c5params.segments.enum = 9
    simp only [c5params, List.enum, List.enumFrom, List.foldl_cons, List.foldl_nil, c5draws]
    rw [c5segment_sample]
    norm_num
  have hdelay : (MonteCarloWorker.runSingleIteration c5params 0 (c5draws 0)).delayCost = 0 := by
    show max 0 ((MonteCarloWorker.runSingleIteration c5params 0 (c5draws 0)).transitDays
        - c5params.segments.foldl (fun s seg => s + seg.baselineDays) 0)
      * ((MonteCarloWorker.runSingleIteration c5params 0 (c5draws 0)).rate * 0.001) = 0
    rw [htransit]
    have hexp : c5params.segments.foldl (fun s seg => s + seg.baselineDays) 0 = 10 := by
      simp only [c5params, c5segment, List.foldl_cons, List.foldl_nil]
      norm_num
    rw [hexp, show max (0 : ℝ) (9 - 10) = 0 from max_eq_left (by norm_num)]
    ring
  refine ⟨hrate, htransit, hdelay, ?_⟩
  show (MonteCarloWorker.runSingleIteration c5params 0 (c5draws 0)).rate
      + (MonteCarloWorker.runSingleIteration c5params 0 (c5draws 0)).delayCost = 980
  rw [hrate, hdelay]
  ring

/-- C5: evaluation of the code at the failing input.  With `stdDev = 0`
configured for both the factor and the segment, and uniform draws whose
standard normal value is -1, the 50-iteration run's first outcome has
rate 980, transitDays 9 and totalLandedCost 980 — not the rate 1000,
transitDays 10 and totalLandedCost 1000 required by the claim — because
`parameters.stdDev || 0.02` (and `|| baselineDays * 0.1`) treats the
configured 0 as falsy and substitutes the default spread. -/
theorem claim_C5_code_bug :
    (MonteCarloWorker.runMonteCarloSimulation c5params 0 c5draws).length = 50 ∧
    ((MonteCarloWorker.runMonteCarloSimulation c5params 0 c5draws).head?.map
        (fun r => (r.rate, r.transitDays, r.delayCost, r.totalLandedCost)))
      = some (980, 9, 0, 980) := by
  obtain ⟨h1, h2, h3, h4⟩ := c5_single_eval
  constructor
  · rw [runMonteCarlo_eq_map]
    simp [c5params]
  · rw [runMonteCarlo_eq_map]
    have hr : List.range c5params.iterations = 0 :: (List.range 50).tail := by rfl
    rw [hr]
    simp only [List.map_cons, List.head?_cons, Option.map_some']
    have e1 : (MonteCarloWorker.outcomeAt c5params 0 c5draws 0).rate
        = (MonteCarloWorker.runSingleIteration c5params 0 (c5draws 0)).rate := rfl
    have e2 : (MonteCarloWorker.outcomeAt c5params 0 c5draws 0).transitDays
        = (MonteCarloWorker.runSingleIteration c5params 0 (c5draws 0)).transitDays := rfl
    have e3 : (MonteCarloWorker.outcomeAt c5params 0 c5draws 0).delayCost
        = (MonteCarloWorker.runSingleIteration c5params 0 (c5draws 0)).delayCost := rfl
    have e4 : (MonteCarloWorker.outcomeAt c5params 0 c5draws 0).totalLandedCost
        = (MonteCarloWorker.runSingleIteration c5params 0 (c5draws 0)).totalLandedCost := rfl
    exact congrArg some (by rw [e1, e2, e3, e4, h1, h2, h3, h4])

/-- The worker's message handler leaves the state unchanged and posts nothing
for every message other than `start`: its only branch is `type === 'start'`. -/
lemma handleMessage_ignored (st : MonteCarloWorker.WorkerState)
    (m : MonteCarloWorker.WorkerMsg) (h : m ≠ MonteCarloWorker.WorkerMsg.start) :
    MonteCarloWorker.handleMessage st m = (st, []) := by
  cases m with
  | start => exact absurd rfl h
  | pause => rfl
  | resume => rfl
  | cancel => rfl

/-- Folding the message-delivery step over non-start messages is the identity. -/
lemma deliver_ignored_aux :
    ∀ (msgs : List MonteCarloWorker.WorkerMsg),
      (∀ m ∈ msgs, m ≠ MonteCarloWorker.WorkerMsg.start) →
      ∀ (st : MonteCarloWorker.WorkerState) (evs : List MonteCarloWorker.WorkerEvent),
        msgs.foldl (fun acc m =>
          let r := MonteCarloWorker.handleMessage acc.1 m
          (r.1, acc.2 ++ r.2)) (st, evs) = (st, evs)
  | [], _, _, _ => rfl
  | m :: ms, h, st, evs => by
      rw [List.foldl_cons]
      have hm := handleMessage_ignored st m (h m (List.mem_cons_self _ _))
      simp only [hm, List.append_nil]
      exact deliver_ignored_aux ms (fun x hx => h x (List.mem_cons_of_mem _ hx)) st evs

/-- Delivering only non-start messages changes nothing and emits nothing. -/
lemma deliver_ignored (st : MonteCarloWorker.WorkerState)
    (msgs : List MonteCarloWorker.WorkerMsg)
    (h : ∀ m ∈ msgs, m ≠ MonteCarloWorker.WorkerMsg.start) :
    MonteCarloWorker.deliver st msgs = (st, []) :=
  deliver_ignored_aux msgs h st []

/-- One batch macrotask from a running state either continues running with the
next batch index or finishes in the `done` state. -/
lemma stepBatch_cases (p : SimulationParams) (now : ℝ) (draws : ℕ → ℕ → ℝ × ℝ)
    (st : MonteCarloWorker.WorkerState)
    (hst : st.status = MonteCarloWorker.WorkerStatus.running) :
    ((MonteCarloWorker.stepBatch p now draws st).1.status
        = MonteCarloWorker.WorkerStatus.running ∧
      (MonteCarloWorker.stepBatch p now draws st).1.batchIndex = st.batchIndex + 1 ∧
      st.batchIndex < (p.iterations + 99) / 100 - 1) ∨
    ((MonteCarloWorker.stepBatch p now draws st).1.status
        = MonteCarloWorker.WorkerStatus.done ∧
      ¬ st.batchIndex < (p.iterations + 99) / 100 - 1) := by
  simp only [MonteCarloWorker.stepBatch]
  rw [if_neg (by simp [hst] : ¬ st.status ≠ MonteCarloWorker.WorkerStatus.running)]
  by_cases hc : st.batchIndex < (p.iterations + 99) / 100 - 1
  · left
    rw [if_pos hc]
    exact ⟨rfl, rfl, hc⟩
  · right
    rw [if_neg hc]
    exact ⟨rfl, hc⟩

/-- A running worker that still has exactly the remaining batches scheduled,
with only non-start messages arriving in the gaps, always finishes `done`. -/
lemma execGaps_done (p : SimulationParams) (now : ℝ) (draws : ℕ → ℕ → ℝ × ℝ) :
    ∀ (gaps : List (List MonteCarloWorker.WorkerMsg)) (st : MonteCarloWorker.WorkerState),
      st.status = MonteCarloWorker.WorkerStatus.running →
      (∀ g ∈ gaps, ∀ m ∈ g, m ≠ MonteCarloWorker.WorkerMsg.start) →
      st.batchIndex + gaps.length = (p.iterations + 99) / 100 →
      st.batchIndex < (p.iterations + 99) / 100 →
      (MonteCarloWorker.execGaps p now draws st gaps).1.status
        = MonteCarloWorker.WorkerStatus.done
  | [], st, _, _, hlen, hlt => absurd hlt (by simp only [List.length_nil] at hlen; omega)
  | g :: rest, st, hst, hgaps, hlen, hlt => by
      have hd : MonteCarloWorker.deliver st g = (st, []) :=
        deliver_ignored st g (hgaps g (List.mem_cons_self _ _))
      simp only [MonteCarloWorker.execGaps, hd]
      rcases stepBatch_cases p now draws st hst with ⟨hs1, hs2, hs3⟩ | ⟨hs1, hs2⟩
      · exact execGaps_done p now draws rest _ hs1
          (fun x hx => hgaps x (List.mem_cons_of_mem _ hx))
          (by rw [hs2]; simp at hlen; omega)
          (by rw [hs2]; omega)
      · have hrest : rest = [] := by
          have : rest.length = 0 := by simp at hlen; omega
          exact List.length_eq_zero.mp this
        subst hrest
        simpa [MonteCarloWorker.execGaps] using hs1

/-- Shape of the C3 state after the first batch: still running, at batch
index 1, 100 iterations completed. -/
lemma c3afterBatch1_eval :
    c3afterBatch1 = MonteCarloWorker.WorkerState.mk MonteCarloWorker.WorkerStatus.running 1 100
      ((MonteCarloWorker.batchIters 200 0).map
        (MonteCarloWorker.outcomeAt c3params 0 c3draws)) := by
  simp only [c3afterBatch1, MonteCarloWorker.execGaps, MonteCarloWorker.deliver,
    MonteCarloWorker.stepBatch, MonteCarloWorker.handleMessage,
    MonteCarloWorker.initialWorkerState, List.foldl_nil]
  norm_num [c3params, MonteCarloWorker.batchIters]

/-- C3 counterexample: with 200 iterations (two batches), a `cancel` message
delivered between the two batches is ignored (state unchanged, no events);
the run then still executes batch 2, emits a further progress event, and
terminates with the `complete` event — a Completed end state, never a
cancelled one. -/
theorem claim_C3_counterexample :
    MonteCarloWorker.deliver c3afterBatch1 [MonteCarloWorker.WorkerMsg.cancel]
      = (c3afterBatch1, []) ∧
    c3afterBatch1.status = MonteCarloWorker.WorkerStatus.running ∧
    (MonteCarloWorker.execGaps c3params 0 c3draws c3afterBatch1
        [[MonteCarloWorker.WorkerMsg.cancel]]).1.status
      = MonteCarloWorker.WorkerStatus.done ∧
    (MonteCarloWorker.execGaps c3params 0 c3draws c3afterBatch1
        [[MonteCarloWorker.WorkerMsg.cancel]]).2.head?
      = some (MonteCarloWorker.WorkerEvent.progress 100 200) ∧
    ((MonteCarloWorker.execGaps c3params 0 c3draws c3afterBatch1
        [[MonteCarloWorker.WorkerMsg.cancel]]).2.getLast?.map isComplete)
      = some true := by
  refine ⟨rfl, ?_, ?_, ?_, ?_⟩
  · rw [c3afterBatch1_eval]
  all_goals
    rw [c3afterBatch1_eval]
    simp only [MonteCarloWorker.execGaps, MonteCarloWorker.deliver,
      MonteCarloWorker.stepBatch, MonteCarloWorker.handleMessage, List.foldl_cons,
      List.foldl_nil]
    norm_num [c3params, MonteCarloWorker.batchIters, isComplete]

/-- C3 amended: the orchestrator has no cancellation handling.  The worker's
message handler ignores every control message other than `start` (no state
change, no events), so a cancellation signal received between batches has no
effect: a started run always schedules all its batches and terminates in the
Completed (`done`) state. -/
theorem claim_C3_amended :
    (∀ (st : MonteCarloWorker.WorkerState) (m : MonteCarloWorker.WorkerMsg),
      m ≠ MonteCarloWorker.WorkerMsg.start →
        MonteCarloWorker.handleMessage st m = (st, [])) ∧
    ∀ (p : SimulationParams) (now : ℝ) (draws : ℕ → ℕ → ℝ × ℝ)
      (gaps : List (List MonteCarloWorker.WorkerMsg)),
      0 < p.iterations →
      gaps.length = (p.iterations + 99) / 100 →
      (∀ g ∈ gaps, ∀ m ∈ g, m ≠ MonteCarloWorker.WorkerMsg.start) →
      (MonteCarloWorker.execGaps p now draws
          (MonteCarloWorker.handleMessage MonteCarloWorker.initialWorkerState
            MonteCarloWorker.WorkerMsg.start).1 gaps).1.status
        = MonteCarloWorker.WorkerStatus.done := by
  refine ⟨handleMessage_ignored, ?_⟩
  intro p now draws gaps hpos hlen hgaps
  have hb : (MonteCarloWorker.handleMessage MonteCarloWorker.initialWorkerState
      MonteCarloWorker.WorkerMsg.start).1.batchIndex = 0 := rfl
  exact execGaps_done p now draws gaps _ rfl hgaps (by rw [hb]; omega) (by rw [hb]; omega)

/-- C3 witness: the amended statement at the 200-iteration scenario with a
cancel message in the second gap, and the ignored handling of a concrete
cancel message. -/
theorem claim_C3_witness :
    (MonteCarloWorker.WorkerMsg.cancel ≠ MonteCarloWorker.WorkerMsg.start ∧
      MonteCarloWorker.handleMessage MonteCarloWorker.initialWorkerState
        MonteCarloWorker.WorkerMsg.cancel = (MonteCarloWorker.initialWorkerState, [])) ∧
    (0 < c3params.iterations ∧
      ([[], [MonteCarloWorker.WorkerMsg.cancel]]
          : List (List MonteCarloWorker.WorkerMsg)).length
        = (c3params.iterations + 99) / 100 ∧
      (MonteCarloWorker.execGaps c3params 0 c3draws
          (MonteCarloWorker.handleMessage MonteCarloWorker.initialWorkerState
            MonteCarloWorker.WorkerMsg.start).1
          [[], [MonteCarloWorker.WorkerMsg.cancel]]).1.status
        = MonteCarloWorker.WorkerStatus.done) :=
  ⟨⟨by decide, claim_C3_amended.1 _ _ (by decide)⟩,
    ⟨by norm_num [c3params], by norm_num [c3params],
      claim_C3_amended.2 c3params 0 c3draws _ (by norm_num [c3params])
        (by norm_num [c3params]) (by decide)⟩⟩

end Oceanflow
